import Mathlib

/-!
Verification of the Orbit bank/wallet canister services against their
natural-language specification.  The definitions below are a shallow
embedding of the Rust sources: identifiers (UUIDs, principals) are
modelled as natural numbers, stable BTree maps as association lists,
byte strings as lists of naturals, and fallible calls as Except values.
-/

namespace Orbit

/-- 128-bit UUIDs are modelled as natural numbers. -/
abbrev UUID := Nat

abbrev AccountId := UUID
abbrev WalletId := UUID
abbrev TransferId := UUID

/-- Principals (caller identities) modelled as natural numbers. -/
abbrev Identity := Nat

abbrev Timestamp := Nat

/-- Byte strings: Rust String.len() counts bytes, so strings whose byte
length matters are modelled as lists of bytes. -/
abbrev Bytes := List Nat

/-! ### Association-list maps, modelling StableBTreeMap primary stores -/

/-- Lookup in an association-list map keyed by naturals: the value of the
first binding of the key, as StableBTreeMap get. -/
def mapGet {α : Type} (k : Nat) : List (Nat × α) → Option α
  | [] => none
  | p :: rest => if p.1 = k then some p.2 else mapGet k rest

/-- Insert into an association-list map, replacing any previous binding. -/
def mapInsert {α : Type} (k : Nat) (v : α) (m : List (Nat × α)) : List (Nat × α) :=
  (k, v) :: m.filter (fun p => p.1 != k)

/-- Remove a key from an association-list map. -/
def mapRemove {α : Type} (k : Nat) (m : List (Nat × α)) : List (Nat × α) :=
  m.filter (fun p => p.1 != k)

/-! ### AccessRole (canisters/wallet/src/models/access_role.rs) -/

inductive AccessRole
  | Admin
  | User
  | Guest
deriving DecidableEq

/-- Rust: impl From for u8 via the repr(u8) discriminants. -/
def AccessRole.toU8 : AccessRole → Nat
  | .Admin => 0
  | .User => 1
  | .Guest => 2

/-- Rust: impl TryFrom for u8, Err modelled as none. -/
def AccessRole.try_from : Nat → Option AccessRole
  | 0 => some .Admin
  | 1 => some .User
  | 2 => some .Guest
  | _ => none

/-- Rust: impl FromStr, Err modelled as none. -/
def AccessRole.from_str : String → Option AccessRole
  | "admin" => some .Admin
  | "user" => some .User
  | "guest" => some .Guest
  | _ => none

/-- Rust: impl Display. -/
def AccessRole.to_string : AccessRole → String
  | .Admin => "admin"
  | .User => "user"
  | .Guest => "guest"

/-! ### Notification (canisters/wallet/impl/src/models/notification.rs) -/

inductive NotificationError
  | ValidationError (info : String)
deriving DecidableEq

inductive NotificationStatus
  | Sent
  | Read
deriving DecidableEq

inductive NotificationType
  | SystemMessage
deriving DecidableEq

structure Notification where
  id : UUID
  notification_type : NotificationType
  status : NotificationStatus
  target_user_id : UUID
  /-- English title and its locale key; byte lengths are what validation reads. -/
  title : Bytes × Bytes
  /-- English message and its locale key. -/
  message : Bytes × Bytes
  created_timestamp : Timestamp
  last_modification_timestamp : Timestamp
deriving DecidableEq

def Notification.MAX_TITLE_LEN : Nat := 255

def Notification.MAX_MESSAGE_LEN : Nat := 4096

/-- Rust fn validate_title: errors when the English component exceeds 255 bytes. -/
def validate_title (title : Bytes × Bytes) : Except NotificationError Unit :=
  if title.1.length > Notification.MAX_TITLE_LEN then
    .error (.ValidationError ("Notification title exceeds the maximum allowed: 255"))
  else
    .ok ()

/-- Rust fn validate_message: errors when the English component exceeds 4096 bytes. -/
def validate_message (message : Bytes × Bytes) : Except NotificationError Unit :=
  if message.1.length > Notification.MAX_MESSAGE_LEN then
    .error (.ValidationError ("Notification message exceeds the maximum allowed: 4096"))
  else
    .ok ()

/-- Rust impl ModelValidator for Notification. -/
def Notification.validate (n : Notification) : Except NotificationError Unit := do
  validate_title n.title
  validate_message n.message

/-! ### User-group repository (canisters/wallet/impl/src/repositories/user_group.rs)

The primary store is a StableBTreeMap from UUID to UserGroup; the secondary
name index is a UserGroupNameIndexRepository storing entries keyed by
(name, user_group_id). -/

/-- Modelled from the spec: the UserGroup model file is not in the excerpt;
per the spec a user-group record has a 128-bit id primary key and a name
that feeds the name index. -/
structure UserGroup where
  id : UUID
  name : String
deriving DecidableEq

/-- Rust UserGroup::to_index_by_name: the derived (name, id) index entry. -/
def to_index_by_name (g : UserGroup) : String × UUID := (g.name, g.id)

/-- Index entries form a set: BTreeMap insert of an existing key is a no-op
on the key set. -/
def idxEntryInsert (e : String × UUID) (idx : List (String × UUID)) :
    List (String × UUID) :=
  if e ∈ idx then idx else e :: idx

def idxEntryRemove (e : String × UUID) (idx : List (String × UUID)) :
    List (String × UUID) :=
  idx.filter (fun x => x != e)

/-- Modelled from the spec: RefreshIndexMode::Value of ic_canister_core is
not in the excerpt; per the spec the index refresh protocol receives the
previous and current derived entries and adds/removes/replaces so the index
stays consistent: the stale previous entry is removed and the current entry
inserted. -/
def refresh_value (previous current : Option (String × UUID))
    (idx : List (String × UUID)) : List (String × UUID) :=
  match previous, current with
  | some p, some c => idxEntryInsert c (idxEntryRemove p idx)
  | some p, none => idxEntryRemove p idx
  | none, some c => idxEntryInsert c idx
  | none, none => idx

/-- Modelled from the spec: RefreshIndexMode::CleanupValue removes the
stale entry of a removed primary record. -/
def refresh_cleanup (current : Option (String × UUID))
    (idx : List (String × UUID)) : List (String × UUID) :=
  match current with
  | some c => idxEntryRemove c idx
  | none => idx

structure UserGroupRepoState where
  db : List (UUID × UserGroup)
  name_index : List (String × UUID)
deriving DecidableEq

def UserGroupRepoState.empty : UserGroupRepoState := ⟨[], []⟩

/-- Rust UserGroupRepository::insert: writes the primary record, then
refreshes the name index with the previous and current derived entries. -/
def UserGroupRepoState.insert (s : UserGroupRepoState) (key : UUID)
    (value : UserGroup) : UserGroupRepoState :=
  let prev := mapGet key s.db
  { db := mapInsert key value s.db
    name_index :=
      refresh_value (prev.map to_index_by_name) (some (to_index_by_name value))
        s.name_index }

/-- Rust UserGroupRepository::remove: deletes the primary record, then
cleans the stale name-index entry. -/
def UserGroupRepoState.remove (s : UserGroupRepoState) (key : UUID) :
    UserGroupRepoState :=
  let prev := mapGet key s.db
  { db := mapRemove key s.db
    name_index := refresh_cleanup (prev.map to_index_by_name) s.name_index }

/-- Rust UserGroupNameIndexRepository::find_by_criteria restricted to a
name: the ids of all index entries carrying that name. -/
def userGroup_ids_by_name (s : UserGroupRepoState) (name : String) :
    List UUID :=
  (s.name_index.filter (fun e => e.1 == name)).map (fun e => e.2)

/-- Rust UserGroupRepository::find_by_name: first id in the criteria result,
then a primary get; none when the criteria result is empty. -/
def UserGroupRepoState.find_by_name (s : UserGroupRepoState) (name : String) :
    Option UserGroup :=
  match userGroup_ids_by_name s name with
  | [] => none
  | id :: _ => mapGet id s.db

/-- A repository call: the two mutating entry points. -/
inductive UGOp
  | ins (key : UUID) (value : UserGroup)
  | rem (key : UUID)
deriving DecidableEq

def applyUGOp (s : UserGroupRepoState) : UGOp → UserGroupRepoState
  | .ins key value => s.insert key value
  | .rem key => s.remove key

def applyUGOps (s : UserGroupRepoState) (ops : List UGOp) : UserGroupRepoState :=
  ops.foldl applyUGOp s

/-- The consistency invariant between primary store and name index:
records are stored under their own id, and an index entry (name, id)
exists exactly when the primary map stores at id a group with that name. -/
def UGConsistent (s : UserGroupRepoState) : Prop :=
  (∀ k g, mapGet k s.db = some g → g.id = k) ∧
  (∀ name id, (name, id) ∈ s.name_index ↔
    ∃ g, mapGet id s.db = some g ∧ g.name = name)

/-! ### Account-identity range index
(canisters/bank/src/repositories/indexes/account_identity_index.rs) -/

/-- Modelled from the spec: the AccountIdentityIndex model file is not in
the excerpt; per the spec a range-queryable index stores composite keys
(grouping_field, member_key), here (identity_id, account_id), ordered
lexicographically with the grouping field first. -/
structure AccountIdentityIndex where
  identity_id : Identity
  account_id : AccountId
deriving DecidableEq

/-- The smallest account id, [u8::MIN; 16]. -/
def ACCOUNT_ID_MIN : Nat := 0

/-- The largest account id, [u8::MAX; 16]. -/
def ACCOUNT_ID_MAX : Nat := 2 ^ 128 - 1

/-- Lexicographic order on composite index keys, identity first. -/
def aiKeyLe (a b : AccountIdentityIndex) : Bool :=
  a.identity_id < b.identity_id ||
    (a.identity_id == b.identity_id && a.account_id ≤ b.account_id)

/-- The index DB is a key set (a StableBTreeMap to unit); BTreeMap insert
of an existing key is a no-op on the key set. -/
def aiInsert (e : AccountIdentityIndex) (db : List AccountIdentityIndex) :
    List AccountIdentityIndex :=
  if e ∈ db then db else e :: db

def aiInsertAll (db : List AccountIdentityIndex)
    (es : List AccountIdentityIndex) : List AccountIdentityIndex :=
  es.foldl (fun acc e => aiInsert e acc) db

/-- Rust AccountIdentityIndexRepository::find_by_criteria: scan the closed
interval from (identity, MIN) to (identity, MAX) and collect account ids. -/
def ai_find_by_criteria (identity : Identity)
    (db : List AccountIdentityIndex) : List AccountId :=
  (db.filter (fun e =>
      aiKeyLe ⟨identity, ACCOUNT_ID_MIN⟩ e && aiKeyLe e ⟨identity, ACCOUNT_ID_MAX⟩)).map
    (fun e => e.account_id)

/-! ### Transfer service (canisters/bank/src/services/transfer.rs) -/

/-- Modelled from the spec: the bank TransferStatus model is not in the
excerpt; a transfer is persisted with the initial status (Created per the
spec) and may be auto-set to Approved at creation. -/
inductive TransferStatus
  | Created
  | Approved
deriving DecidableEq

/-- Wallet policies: the service matches exactly one variant. -/
inductive WalletPolicy
  | ApprovalThreshold (threshold : Nat)
deriving DecidableEq

/-- Modelled from the spec: the Wallet model is not in the excerpt; the
service reads its id, owners, policies, blockchain and standard. -/
structure Wallet where
  id : WalletId
  owners : List AccountId
  policies : List WalletPolicy
  blockchain : String
  standard : String
deriving DecidableEq

/-- Modelled from the spec: the Account model is not in the excerpt; the
service only reads its id. -/
structure Account where
  id : AccountId
deriving DecidableEq

inductive OperationCode
  | ApproveTransfer
deriving DecidableEq

inductive OperationStatus
  | Pending
  | Adopted
  | Rejected
deriving DecidableEq

structure OperationDecision where
  account_id : AccountId
  status : OperationStatus
  decided_dt : Option Timestamp
  last_modification_timestamp : Timestamp
  read : Bool
  status_reason : Option String
deriving DecidableEq

structure Operation where
  id : UUID
  code : OperationCode
  status : OperationStatus
  created_timestamp : Timestamp
  originator_account_id : Option AccountId
  metadata : List (String × String)
  last_modification_timestamp : Timestamp
  decisions : List OperationDecision
deriving DecidableEq

def OPERATION_METADATA_KEY_TRANSFER_ID : String := "transfer_id"

def OPERATION_METADATA_KEY_WALLET_ID : String := "wallet_id"

structure TransferInput where
  from_wallet_id : String
  amount : Nat
  fee : Option Nat
  network : Option String
  expiration_dt : Option String
  metadata : List (String × String)
  to_addr : String
deriving DecidableEq

/-- Modelled from the spec: the bank Transfer model is not in the excerpt;
per the spec a Request carries a fresh unique id, the proposer, the governed
payload fields and a policy snapshot copied by value at creation. -/
structure Transfer where
  id : TransferId
  initiator_account : AccountId
  from_wallet : WalletId
  to_address : String
  amount : Nat
  fee : Nat
  network : String
  status : TransferStatus
  expiration_dt : Timestamp
  policy_snapshot : List WalletPolicy
deriving DecidableEq

/-- The error taxonomy visible in the service. -/
inductive Err
  | AccountNotFound
  | MalformedUuid
  | WalletNotFound (id : WalletId)
  | Forbidden
  | TransferNotFound (transfer_id : TransferId)
  | GetTransfersBatchNotAllowed (maxBatch : Nat)
  | ValidationError (info : String)
  | BlockchainError (info : String)
deriving DecidableEq

/-- The durable repositories the service touches. -/
structure BankState where
  wallets : List (WalletId × Wallet)
  transfers : List (TransferId × Transfer)
  operations : List (UUID × Operation)
deriving DecidableEq

/-- The call environment: caller identity, collaborator services and
adapters. resolve_account models AccountService::get_account_by_identity,
parse_uuid models HelperMapper::to_uuid, blockchain_build and
transaction_fee model the BlockchainApiFactory and its api, post_process
models the ApproveTransfer OperationProcessor, fresh_uuid the successive
generate_uuid_v4 results, now the ic time. -/
structure Env where
  caller : Identity
  resolve_account : Identity → Option Account
  parse_uuid : String → Option UUID
  blockchain_build : String → String → Except Err Unit
  transaction_fee : Wallet → Except Err Nat
  default_network : String
  validate_transfer : Transfer → Except Err Unit
  post_process : Operation → Except Err Unit
  fresh_uuid : Nat → UUID
  now : Timestamp
  default_expiration : Timestamp

/-- The outcome of an update call: a value, a returned error, or a trap
(Rust panic via expect). -/
inductive Outcome (α : Type)
  | ok (a : α)
  | err (e : Err)
  | trap (msg : String)
deriving DecidableEq

/-- Events recording the order of repository writes and post-process
invocations inside create_transfer. -/
inductive Ev
  | insertTransfer (id : TransferId)
  | insertOperation (id : UUID)
  | postProcess (id : UUID)
deriving DecidableEq

def Ev.isInsert : Ev → Bool
  | .insertTransfer _ => true
  | .insertOperation _ => true
  | .postProcess _ => false

/-- Result of a create_transfer call: outcome, repository state at return
or trap point, and the ordered event trace. -/
structure CallOut where
  result : Outcome Transfer
  state : BankState
  trace : List Ev
deriving DecidableEq

/-- Modelled from the spec: TransferMapper::from_create_input is not in the
excerpt; per the spec Create returns a fully formed unsaved Request with the
given fresh id and proposer, drawing payload fields from the input with the
blockchain defaults where the input has none; the initial status is the
spec's Created. The wallet id equals the uuid parsed from the input, which
create_transfer has already parsed, so it is passed through. -/
def from_create_input (input : TransferInput) (transfer_id : TransferId)
    (initiator : AccountId) (wallet_id : WalletId) (default_fee : Nat)
    (network : String) (expiration : Timestamp) : Transfer :=
  { id := transfer_id
    initiator_account := initiator
    from_wallet := wallet_id
    to_address := input.to_addr
    amount := input.amount
    fee := input.fee.getD default_fee
    network := input.network.getD network
    status := .Created
    expiration_dt := expiration
    policy_snapshot := [] }

/-- Modelled from the spec: Transfer::make_policy_snapshot copies the
applicable wallet policies by value onto the transfer at creation time. -/
def make_policy_snapshot (t : Transfer) (w : Wallet) : Transfer :=
  { t with policy_snapshot := w.policies }

/-- The ApproveTransfer operation built for one ApprovalThreshold policy
(transfer.rs lines 150-189): one decision per wallet owner, the initiator
auto-recorded as Adopted with a decided timestamp. -/
def mk_approval_operation (env : Env) (wallet : Wallet) (transfer : Transfer)
    (operation_id : UUID) : Operation :=
  { id := operation_id
    code := .ApproveTransfer
    status := .Pending
    created_timestamp := env.now
    originator_account_id := some transfer.initiator_account
    metadata := [(OPERATION_METADATA_KEY_TRANSFER_ID, toString transfer.id),
                 (OPERATION_METADATA_KEY_WALLET_ID, toString wallet.id)]
    last_modification_timestamp := env.now
    decisions := wallet.owners.map (fun owner =>
      { account_id := owner
        status := if transfer.initiator_account = owner
          then OperationStatus.Adopted else OperationStatus.Pending
        decided_dt := if transfer.initiator_account = owner
          then some env.now else none
        last_modification_timestamp := env.now
        read := transfer.initiator_account == owner
        status_reason := none }) }

/-- The policy loop of build_operations_from_wallet_policies, with the uuid
supply index threaded through. -/
def build_ops_aux (env : Env) (wallet : Wallet) (transfer : Transfer) :
    Nat → List WalletPolicy → List Operation
  | _, [] => []
  | n, .ApprovalThreshold _ :: rest =>
    mk_approval_operation env wallet transfer (env.fresh_uuid n) ::
      build_ops_aux env wallet transfer (n + 1) rest

/-- Rust TransferService::build_operations_from_wallet_policies. -/
def build_operations_from_wallet_policies (env : Env) (wallet : Wallet)
    (transfer : Transfer) : List Operation :=
  build_ops_aux env wallet transfer 1 wallet.policies

/-- The post-process loop of create_transfer (transfer.rs lines 128-134):
every built operation runs the ApproveTransfer processor; an Err from the
processor hits the expect call and traps. -/
def post_process_all (env : Env) (transfer : Transfer) :
    List Operation → Outcome Transfer × List Ev
  | [] => (.ok transfer, [])
  | op :: rest =>
    match env.post_process op with
    | .ok _ =>
      let r := post_process_all env transfer rest
      (r.1, Ev.postProcess op.id :: r.2)
    | .error _ =>
      (.trap ("Operation post processing failed"), [Ev.postProcess op.id])

/-- The operation-repository insert loop of create_transfer. -/
def insert_operations (ops : List Operation) (st : BankState) : BankState :=
  ops.foldl
    (fun s op => { s with operations := mapInsert op.id op s.operations }) st

/-- The transfer as saved (transfer.rs lines 111-117): Approved when no
ApproveTransfer operation was built, otherwise unchanged. -/
def savedTransfer (transfer0 : Transfer) (operations : List Operation) :
    Transfer :=
  if operations.any (fun op => op.code == OperationCode.ApproveTransfer)
  then transfer0
  else { transfer0 with status := TransferStatus.Approved }

/-- The persist-then-post-process tail of create_transfer (transfer.rs
lines 111-136): insert the transfer, insert every operation, then run the
post-process loop. -/
def create_transfer_save (env : Env) (st : BankState) (transfer0 : Transfer)
    (operations : List Operation) : CallOut :=
  let transfer := savedTransfer transfer0 operations
  let st1 := { st with
    transfers := mapInsert transfer.id transfer st.transfers }
  let st2 := insert_operations operations st1
  let evs := Ev.insertTransfer transfer.id ::
    operations.map (fun op => Ev.insertOperation op.id)
  let pp := post_process_all env transfer operations
  ⟨pp.1, st2, evs ++ pp.2⟩

/-- The unsaved transfer built at lines 94-102: mapper output with the
wallet policies snapshotted. -/
def initial_transfer (env : Env) (input : TransferInput)
    (caller_account : Account) (wallet_id : WalletId) (wallet : Wallet)
    (default_fee : Nat) : Transfer :=
  make_policy_snapshot
    (from_create_input input (env.fresh_uuid 0) caller_account.id
      wallet_id default_fee env.default_network env.default_expiration) wallet

/-- The build-validate-persist tail of create_transfer once the caller,
wallet and fee are resolved (transfer.rs lines 92-136). -/
def create_transfer_core (env : Env) (st : BankState) (input : TransferInput)
    (caller_account : Account) (wallet_id : WalletId) (wallet : Wallet)
    (default_fee : Nat) : CallOut :=
  let transfer0 :=
    initial_transfer env input caller_account wallet_id wallet default_fee
  match env.validate_transfer transfer0 with
  | .error e => ⟨.err e, st, []⟩
  | .ok _ =>
    create_transfer_save env st transfer0
      (build_operations_from_wallet_policies env wallet transfer0)

/-- Rust TransferService::create_transfer (transfer.rs lines 71-137). -/
def create_transfer (env : Env) (st : BankState) (input : TransferInput) :
    CallOut :=
  match env.resolve_account env.caller with
  | none => ⟨.err .AccountNotFound, st, []⟩
  | some caller_account =>
    match env.parse_uuid input.from_wallet_id with
    | none => ⟨.err .MalformedUuid, st, []⟩
    | some wallet_id =>
      match mapGet wallet_id st.wallets with
      | none => ⟨.err (.WalletNotFound wallet_id), st, []⟩
      | some wallet =>
        if caller_account.id ∈ wallet.owners then
          match env.blockchain_build wallet.blockchain wallet.standard with
          | .error e => ⟨.err e, st, []⟩
          | .ok _ =>
            match env.transaction_fee wallet with
            | .error e => ⟨.err e, st, []⟩
            | .ok default_fee =>
              create_transfer_core env st input caller_account wallet_id
                wallet default_fee
        else ⟨.err .Forbidden, st, []⟩

/-- The ordered-persistence property of a create_transfer outcome: the
trace is all repository inserts followed by all post-process invocations,
and every inserted transfer and operation is present in the final state. -/
def PersistBeforePost (out : CallOut) : Prop :=
  ∃ pre post, out.trace = pre ++ post ∧
    (∀ e ∈ pre, e.isInsert = true) ∧
    (∀ e ∈ post, e.isInsert = false) ∧
    (∀ tid, Ev.insertTransfer tid ∈ out.trace →
      mapGet tid out.state.transfers ≠ none) ∧
    (∀ oid, Ev.insertOperation oid ∈ out.trace →
      mapGet oid out.state.operations ≠ none)

/-- Rust TransferService::assert_transfer_access (transfer.rs 214-233). -/
def assert_transfer_access (env : Env) (st : BankState) (transfer : Transfer) :
    Except Err Unit :=
  match env.resolve_account env.caller with
  | none => .error .AccountNotFound
  | some caller_account =>
    match mapGet transfer.from_wallet st.wallets with
    | none => .error (.WalletNotFound transfer.from_wallet)
    | some wallet =>
      if caller_account.id = transfer.initiator_account ∨
          caller_account.id ∈ wallet.owners
      then .ok ()
      else .error .Forbidden

/-- Rust TransferService::get_transfer (transfer.rs 43-54). -/
def get_transfer (env : Env) (st : BankState) (id : TransferId) :
    Except Err Transfer :=
  match mapGet id st.transfers with
  | none => .error (.TransferNotFound id)
  | some transfer =>
    match assert_transfer_access env st transfer with
    | .error e => .error e
    | .ok _ => .ok transfer

/-- The accumulation loop of get_transfers (transfer.rs 61-66), including
its second, redundant access assertion. -/
def get_transfers_go (env : Env) (st : BankState) :
    List TransferId → Except Err (List Transfer)
  | [] => .ok []
  | id :: rest =>
    match get_transfer env st id with
    | .error e => .error e
    | .ok transfer =>
      match assert_transfer_access env st transfer with
      | .error e => .error e
      | .ok _ =>
        match get_transfers_go env st rest with
        | .error e => .error e
        | .ok ts => .ok (transfer :: ts)

/-- Rust TransferService::get_transfers (transfer.rs 56-69). -/
def get_transfers (env : Env) (st : BankState)
    (transfer_ids : List TransferId) : Except Err (List Transfer) :=
  if transfer_ids.length > 50 then .error (.GetTransfersBatchNotAllowed 50)
  else get_transfers_go env st transfer_ids

/-! ### Concrete fixtures used by counterexamples and witnesses -/

def envCex : Env :=
  { caller := 9
    resolve_account := fun i => if i = 9 then some ⟨77⟩ else none
    parse_uuid := fun s => if s = "wallet-1" then some 1 else none
    blockchain_build := fun _ _ => .ok ()
    transaction_fee := fun _ => .ok 10
    default_network := "icp:mainnet"
    validate_transfer := fun _ => .ok ()
    post_process := fun _ => .ok ()
    fresh_uuid := fun n => 100 + n
    now := 1000
    default_expiration := 2000 }

/-- envCex with a failing post-process hook. -/
def envHookFail : Env :=
  { envCex with post_process := fun _ => .error (.ValidationError ("boom")) }

def walletNoPolicy : Wallet :=
  { id := 1, owners := [77], policies := [],
    blockchain := "icp", standard := "native" }

def walletOnePolicy : Wallet :=
  { id := 1, owners := [77, 88],
    policies := [WalletPolicy.ApprovalThreshold 1],
    blockchain := "icp", standard := "native" }

def stNoPolicy : BankState :=
  { wallets := [(1, walletNoPolicy)], transfers := [], operations := [] }

def stOnePolicy : BankState :=
  { wallets := [(1, walletOnePolicy)], transfers := [], operations := [] }

def inputCex : TransferInput :=
  { from_wallet_id := "wallet-1", amount := 5, fee := none, network := none,
    expiration_dt := none, metadata := [], to_addr := "addr" }

/-- A stored transfer whose source wallet is absent from the state. -/
def trOrphan : Transfer :=
  { id := 3, initiator_account := 77, from_wallet := 6, to_address := "a",
    amount := 1, fee := 0, network := "n", status := .Created,
    expiration_dt := 0, policy_snapshot := [] }

def stMissingWallet : BankState :=
  { wallets := [], transfers := [(3, trOrphan)], operations := [] }

/-- A concrete transfer against walletOnePolicy initiated by account 77. -/
def trGoverned : Transfer :=
  { id := 100, initiator_account := 77, from_wallet := 1,
    to_address := "addr", amount := 5, fee := 10, network := "icp:mainnet",
    status := .Created, expiration_dt := 2000,
    policy_snapshot := [WalletPolicy.ApprovalThreshold 1] }

/-- A state holding both the wallet and a transfer readable by the caller
of envCex (the initiator). -/
def stWithTransfer : BankState :=
  { wallets := [(1, walletOnePolicy)], transfers := [(100, trGoverned)],
    operations := [] }

end Orbit

namespace Orbit

/-- C10: AccessRole conversions round-trip, and numeric conversion rejects
every value at or above 3. -/
theorem accessRole_conversions :
    (∀ r : AccessRole, AccessRole.try_from (AccessRole.toU8 r) = some r) ∧
    (∀ r : AccessRole, AccessRole.from_str (AccessRole.to_string r) = some r) ∧
    (∀ n : Nat, 3 ≤ n → AccessRole.try_from n = none) := by
  refine ⟨?_, ?_, ?_⟩
  · intro r
    cases r <;> rfl
  · intro r
    cases r <;> rfl
  · intro n h
    obtain ⟨m, rfl⟩ : ∃ m, n = m + 3 := ⟨n - 3, by omega⟩
    rfl

/-- Witness for C10 at concrete inputs. -/
theorem accessRole_conversions_witness :
    AccessRole.try_from 3 = none ∧
    AccessRole.try_from (AccessRole.toU8 AccessRole.Guest) = some AccessRole.Guest :=
  ⟨accessRole_conversions.2.2 3 (by decide), accessRole_conversions.1 AccessRole.Guest⟩

/-! ### Association-map lemmas -/

theorem mapGet_filter_ne {α : Type} (k key : Nat) (h : k ≠ key)
    (m : List (Nat × α)) :
    mapGet k (m.filter (fun p => p.1 != key)) = mapGet k m := by
  induction m with
  | nil => rfl
  | cons p rest ih =>
    rw [List.filter_cons]
    by_cases hp : p.1 = key
    · have h1 : (p.1 != key) = false := by simp [hp]
      rw [h1]
      have h2 : ¬ p.1 = k := by omega
      simp only [Bool.false_eq_true, if_false, ih, mapGet, h2]
    · have h1 : (p.1 != key) = true := by simp [hp]
      rw [h1]
      simp only [if_true, mapGet, ih]

theorem mapGet_filter_self {α : Type} (k : Nat) (m : List (Nat × α)) :
    mapGet k (m.filter (fun p => p.1 != k)) = none := by
  induction m with
  | nil => rfl
  | cons p rest ih =>
    rw [List.filter_cons]
    by_cases hp : p.1 = k
    · have h1 : (p.1 != k) = false := by simp [hp]
      rw [h1]
      simpa using ih
    · have h1 : (p.1 != k) = true := by simp [hp]
      rw [h1]
      simp only [if_true, mapGet, hp, if_false, ih]

theorem mapGet_insert {α : Type} (k key : Nat) (v : α) (m : List (Nat × α)) :
    mapGet k (mapInsert key v m) = if k = key then some v else mapGet k m := by
  by_cases h : k = key
  · subst h
    simp [mapGet, mapInsert]
  · have h' : ¬ key = k := by omega
    simp only [mapInsert, mapGet, h', if_false, h, mapGet_filter_ne k key h]

theorem mapGet_remove {α : Type} (k key : Nat) (m : List (Nat × α)) :
    mapGet k (mapRemove key m) = if k = key then none else mapGet k m := by
  by_cases h : k = key
  · subst h
    simp [mapRemove, mapGet_filter_self]
  · simp only [mapRemove, h, if_false, mapGet_filter_ne k key h]

theorem mem_idxEntryInsert (x e : String × UUID) (idx : List (String × UUID)) :
    x ∈ idxEntryInsert e idx ↔ x = e ∨ x ∈ idx := by
  unfold idxEntryInsert
  split
  · constructor
    · intro hx
      exact Or.inr hx
    · rintro (rfl | hx)
      · assumption
      · exact hx
  · simp [List.mem_cons]

theorem mem_idxEntryRemove (x e : String × UUID) (idx : List (String × UUID)) :
    x ∈ idxEntryRemove e idx ↔ x ∈ idx ∧ x ≠ e := by
  simp [idxEntryRemove, List.mem_filter]

/-! ### User-group repository consistency (C5) -/

theorem ugconsistent_empty : UGConsistent UserGroupRepoState.empty := by
  constructor
  · intro k g h
    simp [mapGet, UserGroupRepoState.empty] at h
  · intro name id
    simp [mapGet, UserGroupRepoState.empty]

theorem ug_insert_db (s : UserGroupRepoState) (key : UUID) (value : UserGroup) :
    (s.insert key value).db = mapInsert key value s.db := rfl

theorem ug_remove_db (s : UserGroupRepoState) (key : UUID) :
    (s.remove key).db = mapRemove key s.db := rfl

theorem ug_insert_name_index_of_prev_none (s : UserGroupRepoState)
    (key : UUID) (value : UserGroup) (hprev : mapGet key s.db = none) :
    (s.insert key value).name_index =
      idxEntryInsert (value.name, value.id) s.name_index := by
  unfold UserGroupRepoState.insert
  rw [hprev]
  rfl

theorem ug_insert_name_index_of_prev_some (s : UserGroupRepoState)
    (key : UUID) (value p : UserGroup) (hprev : mapGet key s.db = some p) :
    (s.insert key value).name_index =
      idxEntryInsert (value.name, value.id)
        (idxEntryRemove (p.name, p.id) s.name_index) := by
  unfold UserGroupRepoState.insert
  rw [hprev]
  rfl

theorem ug_remove_name_index_of_prev_none (s : UserGroupRepoState)
    (key : UUID) (hprev : mapGet key s.db = none) :
    (s.remove key).name_index = s.name_index := by
  unfold UserGroupRepoState.remove
  rw [hprev]
  rfl

theorem ug_remove_name_index_of_prev_some (s : UserGroupRepoState)
    (key : UUID) (p : UserGroup) (hprev : mapGet key s.db = some p) :
    (s.remove key).name_index = idxEntryRemove (p.name, p.id) s.name_index := by
  unfold UserGroupRepoState.remove
  rw [hprev]
  rfl

theorem ugconsistent_insert (s : UserGroupRepoState) (key : UUID)
    (value : UserGroup) (hkey : key = value.id) (hs : UGConsistent s) :
    UGConsistent (s.insert key value) := by
  subst hkey
  obtain ⟨hids, hidx⟩ := hs
  constructor
  · intro k g hget
    rw [ug_insert_db, mapGet_insert] at hget
    by_cases hk : k = value.id
    · rw [if_pos hk] at hget
      injection hget with hg
      rw [← hg]
      exact hk.symm
    · rw [if_neg hk] at hget
      exact hids k g hget
  · intro name id
    have hdb : mapGet id (s.insert value.id value).db =
        if id = value.id then some value else mapGet id s.db := by
      rw [ug_insert_db, mapGet_insert]
    cases hprev : mapGet value.id s.db with
    | none =>
      rw [ug_insert_name_index_of_prev_none s value.id value hprev,
        mem_idxEntryInsert]
      by_cases hid : id = value.id
      · subst hid
        constructor
        · rintro (h | h)
          · refine ⟨value, ?_, ?_⟩
            · rw [hdb]; simp
            · rw [Prod.mk.injEq] at h
              exact h.1.symm
          · obtain ⟨g, hg, _⟩ := (hidx name value.id).mp h
            rw [hprev] at hg
            cases hg
        · rintro ⟨g, hg, hgname⟩
          rw [hdb] at hg
          simp only [if_pos] at hg
          injection hg with hg'
          subst hg'
          left
          rw [Prod.mk.injEq]
          exact ⟨hgname.symm, rfl⟩
      · rw [hdb, if_neg hid]
        constructor
        · rintro (h | h)
          · rw [Prod.mk.injEq] at h
            exact absurd h.2 hid
          · exact (hidx name id).mp h
        · intro h
          exact Or.inr ((hidx name id).mpr h)
    | some p =>
      have hpid : p.id = value.id := hids value.id p hprev
      rw [ug_insert_name_index_of_prev_some s value.id value p hprev,
        mem_idxEntryInsert, mem_idxEntryRemove]
      by_cases hid : id = value.id
      · subst hid
        constructor
        · rintro (h | ⟨hmem, hne⟩)
          · refine ⟨value, ?_, ?_⟩
            · rw [hdb]; simp
            · rw [Prod.mk.injEq] at h
              exact h.1.symm
          · obtain ⟨g, hg, hgname⟩ := (hidx name value.id).mp hmem
            rw [hprev] at hg
            injection hg with hg'
            subst hg'
            exact absurd (show (name, value.id) = (p.name, p.id) by
              rw [Prod.mk.injEq]
              exact ⟨hgname.symm, hpid.symm⟩) hne
        · rintro ⟨g, hg, hgname⟩
          rw [hdb] at hg
          simp only [if_pos] at hg
          injection hg with hg'
          subst hg'
          left
          rw [Prod.mk.injEq]
          exact ⟨hgname.symm, rfl⟩
      · rw [hdb, if_neg hid]
        constructor
        · rintro (h | ⟨hmem, _⟩)
          · rw [Prod.mk.injEq] at h
            exact absurd h.2 hid
          · exact (hidx name id).mp hmem
        · intro h
          refine Or.inr ⟨(hidx name id).mpr h, ?_⟩
          intro hx
          rw [Prod.mk.injEq] at hx
          rw [hpid] at hx
          exact hid hx.2

theorem ugconsistent_remove (s : UserGroupRepoState) (key : UUID)
    (hs : UGConsistent s) : UGConsistent (s.remove key) := by
  obtain ⟨hids, hidx⟩ := hs
  constructor
  · intro k g hget
    rw [ug_remove_db, mapGet_remove] at hget
    by_cases hk : k = key
    · rw [if_pos hk] at hget
      cases hget
    · rw [if_neg hk] at hget
      exact hids k g hget
  · intro name id
    have hdb : mapGet id (s.remove key).db =
        if id = key then none else mapGet id s.db := by
      rw [ug_remove_db, mapGet_remove]
    cases hprev : mapGet key s.db with
    | none =>
      rw [ug_remove_name_index_of_prev_none s key hprev, hdb]
      by_cases hid : id = key
      · subst hid
        rw [if_pos rfl]
        constructor
        · intro h
          obtain ⟨g, hg, _⟩ := (hidx name id).mp h
          rw [hprev] at hg
          cases hg
        · rintro ⟨g, hg, _⟩
          cases hg
      · rw [if_neg hid]
        exact hidx name id
    | some p =>
      have hpid : p.id = key := hids key p hprev
      rw [ug_remove_name_index_of_prev_some s key p hprev,
        mem_idxEntryRemove, hdb]
      by_cases hid : id = key
      · subst hid
        rw [if_pos rfl]
        constructor
        · rintro ⟨hmem, hne⟩
          obtain ⟨g, hg, hgname⟩ := (hidx name id).mp hmem
          rw [hprev] at hg
          injection hg with hg'
          subst hg'
          exact absurd (show (name, id) = (p.name, p.id) by
            rw [Prod.mk.injEq]
            exact ⟨hgname.symm, hpid.symm⟩) hne
        · rintro ⟨g, hg, _⟩
          cases hg
      · rw [if_neg hid]
        constructor
        · rintro ⟨hmem, _⟩
          exact (hidx name id).mp hmem
        · intro h
          refine ⟨(hidx name id).mpr h, ?_⟩
          intro hx
          rw [Prod.mk.injEq] at hx
          rw [hpid] at hx
          exact hid hx.2

theorem ugconsistent_applyOps (s : UserGroupRepoState) (ops : List UGOp)
    (hs : UGConsistent s)
    (hw : ∀ key value, UGOp.ins key value ∈ ops → key = value.id) :
    UGConsistent (applyUGOps s ops) := by
  induction ops generalizing s with
  | nil => exact hs
  | cons op rest ih =>
    have hstep : UGConsistent (applyUGOp s op) := by
      cases op with
      | ins key value =>
        exact ugconsistent_insert s key value
          (hw key value (List.mem_cons_self _ _)) hs
      | rem key => exact ugconsistent_remove s key hs
    exact ih (applyUGOp s op) hstep
      (fun key value hmem => hw key value (List.mem_cons_of_mem _ hmem))

theorem ug_removed_group_not_found (s : UserGroupRepoState) (id : UUID)
    (g : UserGroup) (hs : UGConsistent s) (hget : mapGet id s.db = some g) :
    (g.name, id) ∉ (s.remove id).name_index ∧
      ∀ g', (s.remove id).find_by_name g.name = some g' → g'.id ≠ id := by
  have hs' : UGConsistent (s.remove id) := ugconsistent_remove s id hs
  have hnone : mapGet id (s.remove id).db = none := by
    rw [show (s.remove id).db = mapRemove id s.db from rfl, mapGet_remove]
    simp
  constructor
  · intro hmem
    obtain ⟨g', hg', _⟩ := (hs'.2 g.name id).mp hmem
    rw [hnone] at hg'
    cases hg'
  · intro g' hfind
    unfold UserGroupRepoState.find_by_name at hfind
    cases hids : userGroup_ids_by_name (s.remove id) g.name with
    | nil => rw [hids] at hfind; cases hfind
    | cons id' rest =>
      rw [hids] at hfind
      have hfind2 : mapGet id' (s.remove id).db = some g' := hfind
      have hid' : g'.id = id' := hs'.1 id' g' hfind2
      intro hcontra
      have hii : id' = id := by rw [← hid', hcontra]
      rw [hii, hnone] at hfind2
      cases hfind2

/-- C5: after any sequence of insert and remove calls through the
user-group repository, the name index contains (name, id) exactly when the
primary map stores at id a group named name; removing a group removes its
index entry, and a subsequent find_by_name no longer returns the removed
group. -/
theorem userGroup_name_index_consistent (ops : List UGOp)
    (hw : ∀ key value, UGOp.ins key value ∈ ops → key = value.id) :
    UGConsistent (applyUGOps UserGroupRepoState.empty ops) ∧
    ∀ id g,
      mapGet id (applyUGOps UserGroupRepoState.empty ops).db = some g →
      (g.name, id) ∉
        ((applyUGOps UserGroupRepoState.empty ops).remove id).name_index ∧
      ∀ g', ((applyUGOps UserGroupRepoState.empty ops).remove id).find_by_name
          g.name = some g' → g'.id ≠ id := by
  have hc : UGConsistent (applyUGOps UserGroupRepoState.empty ops) :=
    ugconsistent_applyOps UserGroupRepoState.empty ops ugconsistent_empty hw
  exact ⟨hc, fun id g hget => ug_removed_group_not_found _ id g hc hget⟩

/-- Witness for C5 on a concrete call sequence. -/
theorem userGroup_name_index_consistent_witness :
    UGConsistent (applyUGOps UserGroupRepoState.empty
      [UGOp.ins 1 ⟨1, "alpha"⟩, UGOp.ins 2 ⟨2, "beta"⟩, UGOp.rem 1]) := by
  refine (userGroup_name_index_consistent
    [UGOp.ins 1 ⟨1, "alpha"⟩, UGOp.ins 2 ⟨2, "beta"⟩, UGOp.rem 1] ?_).1
  intro key value h
  simp only [List.mem_cons, List.not_mem_nil, or_false] at h
  rcases h with h | h | h <;> cases h <;> rfl

/-! ### Account-identity index round-trip (C6) -/

theorem ai_in_range_iff (g : Identity) (e : AccountIdentityIndex) :
    (aiKeyLe ⟨g, ACCOUNT_ID_MIN⟩ e && aiKeyLe e ⟨g, ACCOUNT_ID_MAX⟩) = true ↔
      e.identity_id = g ∧ e.account_id ≤ ACCOUNT_ID_MAX := by
  obtain ⟨i, a⟩ := e
  simp only [aiKeyLe, ACCOUNT_ID_MIN, Bool.and_eq_true,
    Bool.or_eq_true, decide_eq_true_eq, beq_iff_eq]
  constructor
  · rintro ⟨h1, h2 | ⟨h2, h3⟩⟩
    · exfalso
      rcases h1 with h1 | ⟨h1, _⟩
      · exact Nat.lt_asymm h1 h2
      · subst h1
        exact Nat.lt_irrefl _ h2
    · exact ⟨h2, h3⟩
  · rintro ⟨h1, h2⟩
    exact ⟨Or.inr ⟨h1.symm, Nat.zero_le _⟩, Or.inr ⟨h1, h2⟩⟩

theorem mem_aiInsert (x e : AccountIdentityIndex)
    (db : List AccountIdentityIndex) :
    x ∈ aiInsert e db ↔ x = e ∨ x ∈ db := by
  unfold aiInsert
  split
  · constructor
    · intro hx
      exact Or.inr hx
    · rintro (rfl | hx)
      · assumption
      · exact hx
  · simp [List.mem_cons]

theorem mem_aiInsertAll (x : AccountIdentityIndex)
    (db es : List AccountIdentityIndex) :
    x ∈ aiInsertAll db es ↔ x ∈ db ∨ x ∈ es := by
  induction es generalizing db with
  | nil => simp [aiInsertAll]
  | cons e rest ih =>
    have hstep : aiInsertAll db (e :: rest) = aiInsertAll (aiInsert e db) rest := rfl
    rw [hstep, ih, mem_aiInsert]
    simp only [List.mem_cons]
    tauto

/-- C6: after inserting entries that all carry identity g into an index
holding no entry for g, a criteria lookup for g returns exactly the set of
the inserted account ids, in any insertion order, and never an account id
stored under another identity. -/
theorem accountIdentityIndex_roundtrip (g : Identity)
    (db es : List AccountIdentityIndex)
    (hdb : ∀ e ∈ db, e.identity_id ≠ g)
    (hes : ∀ e ∈ es, e.identity_id = g ∧ e.account_id ≤ ACCOUNT_ID_MAX) :
    ∀ a : AccountId,
      a ∈ ai_find_by_criteria g (aiInsertAll db es) ↔
        a ∈ es.map (fun e => e.account_id) := by
  intro a
  unfold ai_find_by_criteria
  constructor
  · intro h
    rw [List.mem_map] at h
    obtain ⟨e, he, rfl⟩ := h
    rw [List.mem_filter] at he
    obtain ⟨hmem, hrange⟩ := he
    rw [ai_in_range_iff] at hrange
    rw [mem_aiInsertAll] at hmem
    cases hmem with
    | inl hin => exact absurd hrange.1 (hdb e hin)
    | inr hin => exact List.mem_map.mpr ⟨e, hin, rfl⟩
  · intro h
    rw [List.mem_map] at h
    obtain ⟨e, he, rfl⟩ := h
    refine List.mem_map.mpr ⟨e, ?_, rfl⟩
    rw [List.mem_filter]
    refine ⟨(mem_aiInsertAll e db es).mpr (Or.inr he), ?_⟩
    rw [ai_in_range_iff]
    exact hes e he

/-- Witness for C6 on a concrete index state. -/
theorem accountIdentityIndex_roundtrip_witness :
    3 ∈ ai_find_by_criteria 5 (aiInsertAll
      [⟨7, 1⟩] [⟨5, 2⟩, ⟨5, 3⟩]) ∧
    1 ∉ ai_find_by_criteria 5 (aiInsertAll
      [⟨7, 1⟩] [⟨5, 2⟩, ⟨5, 3⟩]) := by
  have h := accountIdentityIndex_roundtrip 5 [⟨7, 1⟩] [⟨5, 2⟩, ⟨5, 3⟩]
    (by decide) (by decide)
  refine ⟨(h 3).mpr (by decide), fun hc => ?_⟩
  have := (h 1).mp hc
  simp at this

/-! ### Transfer-service lemmas -/

theorem build_ops_aux_shape (env : Env) (wallet : Wallet)
    (transfer : Transfer) (n : Nat) (ps : List WalletPolicy) (op : Operation)
    (hop : op ∈ build_ops_aux env wallet transfer n ps) :
    ∃ m, op = mk_approval_operation env wallet transfer (env.fresh_uuid m) := by
  induction ps generalizing n with
  | nil => cases hop
  | cons p rest ih =>
    cases p with
    | ApprovalThreshold t =>
      rw [build_ops_aux] at hop
      rcases List.mem_cons.mp hop with h | h
      · exact ⟨n, h⟩
      · exact ih (n + 1) h

theorem build_ops_aux_ne_nil (env : Env) (wallet : Wallet)
    (transfer : Transfer) (n : Nat) (p : WalletPolicy)
    (ps : List WalletPolicy) :
    build_ops_aux env wallet transfer n (p :: ps) ≠ [] := by
  cases p with
  | ApprovalThreshold t =>
    rw [build_ops_aux]
    exact List.cons_ne_nil _ _

theorem insert_operations_transfers (ops : List Operation) (st : BankState) :
    (insert_operations ops st).transfers = st.transfers := by
  induction ops generalizing st with
  | nil => rfl
  | cons op rest ih =>
    have hstep : insert_operations (op :: rest) st =
        insert_operations rest
          { st with operations := mapInsert op.id op st.operations } := rfl
    rw [hstep, ih]

theorem insert_operations_wallets (ops : List Operation) (st : BankState) :
    (insert_operations ops st).wallets = st.wallets := by
  induction ops generalizing st with
  | nil => rfl
  | cons op rest ih =>
    have hstep : insert_operations (op :: rest) st =
        insert_operations rest
          { st with operations := mapInsert op.id op st.operations } := rfl
    rw [hstep, ih]

theorem insert_operations_mono (ops : List Operation) (st : BankState)
    (k : UUID) (h : mapGet k st.operations ≠ none) :
    mapGet k (insert_operations ops st).operations ≠ none := by
  induction ops generalizing st with
  | nil => exact h
  | cons op rest ih =>
    have hstep : insert_operations (op :: rest) st =
        insert_operations rest
          { st with operations := mapInsert op.id op st.operations } := rfl
    rw [hstep]
    refine ih _ ?_
    show mapGet k (mapInsert op.id op st.operations) ≠ none
    rw [mapGet_insert]
    by_cases hk : k = op.id
    · rw [if_pos hk]
      exact Option.some_ne_none _
    · rw [if_neg hk]
      exact h

theorem insert_operations_covers (ops : List Operation) (st : BankState)
    (op : Operation) (hop : op ∈ ops) :
    mapGet op.id (insert_operations ops st).operations ≠ none := by
  induction ops generalizing st with
  | nil => cases hop
  | cons op0 rest ih =>
    have hstep : insert_operations (op0 :: rest) st =
        insert_operations rest
          { st with operations := mapInsert op0.id op0 st.operations } := rfl
    rw [hstep]
    rcases List.mem_cons.mp hop with h | h
    · subst h
      refine insert_operations_mono rest _ op.id ?_
      show mapGet op.id (mapInsert op.id op st.operations) ≠ none
      rw [mapGet_insert, if_pos rfl]
      exact Option.some_ne_none _
    · exact ih _ h

theorem post_process_all_events (env : Env) (transfer : Transfer)
    (ops : List Operation) :
    ∀ e ∈ (post_process_all env transfer ops).2, e.isInsert = false := by
  induction ops with
  | nil =>
    intro e he
    cases he
  | cons op rest ih =>
    intro e he
    rw [post_process_all] at he
    cases hpp : env.post_process op with
    | ok u =>
      rw [hpp] at he
      rcases List.mem_cons.mp he with h | h
      · rw [h]; rfl
      · exact ih e h
    | error err =>
      rw [hpp] at he
      rcases List.mem_cons.mp he with h | h
      · rw [h]; rfl
      · cases h

theorem post_process_all_ok (env : Env) (transfer : Transfer)
    (ops : List Operation)
    (h : ∀ op ∈ ops, env.post_process op = .ok ()) :
    (post_process_all env transfer ops).1 = .ok transfer := by
  induction ops with
  | nil => rfl
  | cons op rest ih =>
    rw [post_process_all, h op (List.mem_cons_self _ _)]
    exact ih (fun o ho => h o (List.mem_cons_of_mem _ ho))

theorem post_process_all_trap (env : Env) (transfer : Transfer)
    (ops : List Operation)
    (hne : ops ≠ [])
    (h : ∀ op, ∃ e, env.post_process op = .error e) :
    (post_process_all env transfer ops).1 =
      .trap ("Operation post processing failed") := by
  cases ops with
  | nil => exact absurd rfl hne
  | cons op rest =>
    obtain ⟨e, he⟩ := h op
    rw [post_process_all, he]

/-- C3: every approval operation built from the wallet policies records one
decision per wallet owner in order; a decision is Adopted with a decided
timestamp exactly for the initiating account, Pending with none for every
other owner; when the initiator is an owner it has an Adopted decision. -/
theorem build_operations_decisions (env : Env) (wallet : Wallet)
    (transfer : Transfer) (op : Operation)
    (hop : op ∈ build_operations_from_wallet_policies env wallet transfer) :
    op.decisions.map (fun d => d.account_id) = wallet.owners ∧
    (∀ d ∈ op.decisions,
      (d.account_id = transfer.initiator_account →
        d.status = OperationStatus.Adopted ∧ d.decided_dt = some env.now) ∧
      (d.account_id ≠ transfer.initiator_account →
        d.status = OperationStatus.Pending ∧ d.decided_dt = none)) ∧
    (transfer.initiator_account ∈ wallet.owners →
      ∃ d ∈ op.decisions, d.account_id = transfer.initiator_account ∧
        d.status = OperationStatus.Adopted ∧ d.decided_dt = some env.now) := by
  obtain ⟨m, rfl⟩ := build_ops_aux_shape env wallet transfer 1 wallet.policies
    op hop
  have h1 : (mk_approval_operation env wallet transfer
      (env.fresh_uuid m)).decisions.map (fun d => d.account_id) =
      wallet.owners := by
    rw [mk_approval_operation]
    rw [List.map_map]
    exact List.map_id'' (fun x => rfl) wallet.owners
  have h2 : ∀ d ∈ (mk_approval_operation env wallet transfer
      (env.fresh_uuid m)).decisions,
      (d.account_id = transfer.initiator_account →
        d.status = OperationStatus.Adopted ∧ d.decided_dt = some env.now) ∧
      (d.account_id ≠ transfer.initiator_account →
        d.status = OperationStatus.Pending ∧ d.decided_dt = none) := by
    intro d hd
    rw [mk_approval_operation] at hd
    simp only [List.mem_map] at hd
    obtain ⟨owner, howner, rfl⟩ := hd
    constructor
    · intro hacc
      have heq : transfer.initiator_account = owner := hacc.symm
      simp [heq]
    · intro hacc
      have hne : ¬ transfer.initiator_account = owner := fun hx => hacc hx.symm
      simp [hne]
  refine ⟨h1, h2, ?_⟩
  intro hin
  rw [← h1, List.mem_map] at hin
  obtain ⟨d, hd, hdacc⟩ := hin
  exact ⟨d, hd, hdacc, (h2 d hd).1 hdacc⟩

/-- Witness for C3 at a concrete wallet with one threshold policy. -/
theorem build_operations_decisions_witness :
    (mk_approval_operation envCex walletOnePolicy trGoverned
        (envCex.fresh_uuid 1)).decisions.map (fun d => d.account_id) =
      walletOnePolicy.owners :=
  (build_operations_decisions envCex walletOnePolicy trGoverned _
    (by exact List.mem_cons_self _ _)).1

theorem post_process_all_shape (env : Env) (transfer : Transfer)
    (ops : List Operation) :
    ∀ e ∈ (post_process_all env transfer ops).2,
      ∃ oid, e = Ev.postProcess oid := by
  induction ops with
  | nil =>
    intro e he
    cases he
  | cons op rest ih =>
    intro e he
    rw [post_process_all] at he
    cases hpp : env.post_process op with
    | ok u =>
      rw [hpp] at he
      rcases List.mem_cons.mp he with h | h
      · exact ⟨op.id, h⟩
      · exact ih e h
    | error err =>
      rw [hpp] at he
      rcases List.mem_cons.mp he with h | h
      · exact ⟨op.id, h⟩
      · cases h

theorem savedTransfer_id (transfer0 : Transfer) (ops : List Operation) :
    (savedTransfer transfer0 ops).id = transfer0.id := by
  unfold savedTransfer
  split <;> rfl

theorem create_transfer_save_result (env : Env) (st : BankState)
    (transfer0 : Transfer) (ops : List Operation) :
    (create_transfer_save env st transfer0 ops).result =
      (post_process_all env (savedTransfer transfer0 ops) ops).1 := rfl

theorem create_transfer_save_state (env : Env) (st : BankState)
    (transfer0 : Transfer) (ops : List Operation) :
    (create_transfer_save env st transfer0 ops).state =
      insert_operations ops
        { st with transfers :=
            (mapInsert (savedTransfer transfer0 ops).id
              (savedTransfer transfer0 ops) st.transfers) } := rfl

theorem create_transfer_save_trace (env : Env) (st : BankState)
    (transfer0 : Transfer) (ops : List Operation) :
    (create_transfer_save env st transfer0 ops).trace =
      (Ev.insertTransfer (savedTransfer transfer0 ops).id ::
        ops.map (fun op => Ev.insertOperation op.id)) ++
      (post_process_all env (savedTransfer transfer0 ops) ops).2 := rfl

theorem persist_of_empty_trace (out : CallOut) (h : out.trace = []) :
    PersistBeforePost out := by
  refine ⟨[], [], by rw [h]; rfl, ?_, ?_, ?_, ?_⟩
  · intro e he
    cases he
  · intro e he
    cases he
  · intro tid htid
    rw [h] at htid
    cases htid
  · intro oid hoid
    rw [h] at hoid
    cases hoid

theorem create_transfer_save_persists (env : Env) (st : BankState)
    (transfer0 : Transfer) (ops : List Operation) :
    PersistBeforePost (create_transfer_save env st transfer0 ops) := by
  refine ⟨Ev.insertTransfer (savedTransfer transfer0 ops).id ::
      ops.map (fun op => Ev.insertOperation op.id),
    (post_process_all env (savedTransfer transfer0 ops) ops).2,
    create_transfer_save_trace env st transfer0 ops, ?_, ?_, ?_, ?_⟩
  · intro e he
    rcases List.mem_cons.mp he with h | h
    · subst h
      rfl
    · rw [List.mem_map] at h
      obtain ⟨op, _, rfl⟩ := h
      rfl
  · exact post_process_all_events env _ ops
  · intro tid htid
    rw [create_transfer_save_trace, List.mem_append] at htid
    have htid2 : tid = (savedTransfer transfer0 ops).id := by
      rcases htid with h | h
      · rcases List.mem_cons.mp h with h2 | h2
        · simp only [Ev.insertTransfer.injEq] at h2
          exact h2
        · rw [List.mem_map] at h2
          obtain ⟨op, _, heq⟩ := h2
          cases heq
      · obtain ⟨oid, heq⟩ := post_process_all_shape env _ ops _ h
        cases heq
    rw [create_transfer_save_state, insert_operations_transfers, htid2]
    show mapGet _ (mapInsert _ _ st.transfers) ≠ none
    rw [mapGet_insert, if_pos rfl]
    exact Option.some_ne_none _
  · intro oid hoid
    rw [create_transfer_save_trace, List.mem_append] at hoid
    have hoid2 : ∃ op ∈ ops, oid = op.id := by
      rcases hoid with h | h
      · rcases List.mem_cons.mp h with h2 | h2
        · cases h2
        · rw [List.mem_map] at h2
          obtain ⟨op, hop, heq⟩ := h2
          injection heq with h3
          exact ⟨op, hop, h3.symm⟩
      · obtain ⟨oid', heq⟩ := post_process_all_shape env _ ops _ h
        cases heq
    obtain ⟨op, hop, rfl⟩ := hoid2
    rw [create_transfer_save_state]
    exact insert_operations_covers ops _ op hop

/-! Early-exit equations of create_transfer. -/

theorem create_transfer_err_no_account (env : Env) (st : BankState)
    (input : TransferInput) (h : env.resolve_account env.caller = none) :
    create_transfer env st input = ⟨.err .AccountNotFound, st, []⟩ := by
  unfold create_transfer
  rw [h]

theorem create_transfer_err_bad_uuid (env : Env) (st : BankState)
    (input : TransferInput) (ca : Account)
    (h1 : env.resolve_account env.caller = some ca)
    (h2 : env.parse_uuid input.from_wallet_id = none) :
    create_transfer env st input = ⟨.err .MalformedUuid, st, []⟩ := by
  unfold create_transfer
  rw [h1, h2]

theorem create_transfer_err_no_wallet (env : Env) (st : BankState)
    (input : TransferInput) (ca : Account) (wid : WalletId)
    (h1 : env.resolve_account env.caller = some ca)
    (h2 : env.parse_uuid input.from_wallet_id = some wid)
    (h3 : mapGet wid st.wallets = none) :
    create_transfer env st input = ⟨.err (.WalletNotFound wid), st, []⟩ := by
  simp only [create_transfer, h1, h2, h3]

theorem create_transfer_err_forbidden (env : Env) (st : BankState)
    (input : TransferInput) (ca : Account) (wid : WalletId) (w : Wallet)
    (h1 : env.resolve_account env.caller = some ca)
    (h2 : env.parse_uuid input.from_wallet_id = some wid)
    (h3 : mapGet wid st.wallets = some w)
    (h4 : ca.id ∉ w.owners) :
    create_transfer env st input = ⟨.err .Forbidden, st, []⟩ := by
  simp only [create_transfer, h1, h2, h3, h4, if_false, ite_false]

theorem create_transfer_err_blockchain (env : Env) (st : BankState)
    (input : TransferInput) (ca : Account) (wid : WalletId) (w : Wallet)
    (e : Err)
    (h1 : env.resolve_account env.caller = some ca)
    (h2 : env.parse_uuid input.from_wallet_id = some wid)
    (h3 : mapGet wid st.wallets = some w)
    (h4 : ca.id ∈ w.owners)
    (h5 : env.blockchain_build w.blockchain w.standard = .error e) :
    create_transfer env st input = ⟨.err e, st, []⟩ := by
  simp only [create_transfer, h1, h2, h3, h4, if_true, ite_true, h5]

theorem create_transfer_err_fee (env : Env) (st : BankState)
    (input : TransferInput) (ca : Account) (wid : WalletId) (w : Wallet)
    (e : Err)
    (h1 : env.resolve_account env.caller = some ca)
    (h2 : env.parse_uuid input.from_wallet_id = some wid)
    (h3 : mapGet wid st.wallets = some w)
    (h4 : ca.id ∈ w.owners)
    (h5 : env.blockchain_build w.blockchain w.standard = .ok ())
    (h6 : env.transaction_fee w = .error e) :
    create_transfer env st input = ⟨.err e, st, []⟩ := by
  simp only [create_transfer, h1, h2, h3, h4, if_true, ite_true, h5, h6]

/-- Reduction of create_transfer to its core under resolved collaborators. -/
theorem create_transfer_reduces (env : Env) (st : BankState)
    (input : TransferInput) (ca : Account) (wid : WalletId) (w : Wallet)
    (fee : Nat)
    (h1 : env.resolve_account env.caller = some ca)
    (h2 : env.parse_uuid input.from_wallet_id = some wid)
    (h3 : mapGet wid st.wallets = some w)
    (h4 : ca.id ∈ w.owners)
    (h5 : env.blockchain_build w.blockchain w.standard = .ok ())
    (h6 : env.transaction_fee w = .ok fee) :
    create_transfer env st input =
      create_transfer_core env st input ca wid w fee := by
  simp only [create_transfer, h1, h2, h3, h4, if_true, ite_true, h5, h6]

theorem create_transfer_core_err_validate (env : Env) (st : BankState)
    (input : TransferInput) (ca : Account) (wid : WalletId) (w : Wallet)
    (fee : Nat) (e : Err)
    (h : env.validate_transfer (initial_transfer env input ca wid w fee) =
      .error e) :
    create_transfer_core env st input ca wid w fee = ⟨.err e, st, []⟩ := by
  simp only [create_transfer_core]
  rw [h]

theorem create_transfer_core_save (env : Env) (st : BankState)
    (input : TransferInput) (ca : Account) (wid : WalletId) (w : Wallet)
    (fee : Nat)
    (h : env.validate_transfer (initial_transfer env input ca wid w fee) =
      .ok ()) :
    create_transfer_core env st input ca wid w fee =
      create_transfer_save env st (initial_transfer env input ca wid w fee)
        (build_operations_from_wallet_policies env w
          (initial_transfer env input ca wid w fee)) := by
  simp only [create_transfer_core]
  rw [h]

/-- C4: in every execution of create_transfer, all repository inserts (the
transfer and its operations) appear in the trace strictly before every
post-process invocation, and each inserted record is present in the final
state, even at a trap. -/
theorem create_transfer_persists_before_post_process (env : Env)
    (st : BankState) (input : TransferInput) :
    PersistBeforePost (create_transfer env st input) := by
  cases hra : env.resolve_account env.caller with
  | none =>
    rw [create_transfer_err_no_account env st input hra]
    exact persist_of_empty_trace _ rfl
  | some ca =>
    cases hpu : env.parse_uuid input.from_wallet_id with
    | none =>
      rw [create_transfer_err_bad_uuid env st input ca hra hpu]
      exact persist_of_empty_trace _ rfl
    | some wid =>
      cases hwg : mapGet wid st.wallets with
      | none =>
        rw [create_transfer_err_no_wallet env st input ca wid hra hpu hwg]
        exact persist_of_empty_trace _ rfl
      | some w =>
        by_cases hmem : ca.id ∈ w.owners
        · cases hbb : env.blockchain_build w.blockchain w.standard with
          | error e =>
            rw [create_transfer_err_blockchain env st input ca wid w e hra hpu
              hwg hmem hbb]
            exact persist_of_empty_trace _ rfl
          | ok u =>
            cases u
            cases hfee : env.transaction_fee w with
            | error e =>
              rw [create_transfer_err_fee env st input ca wid w e hra hpu hwg
                hmem hbb hfee]
              exact persist_of_empty_trace _ rfl
            | ok fee =>
              rw [create_transfer_reduces env st input ca wid w fee hra hpu
                hwg hmem hbb hfee]
              cases hv : env.validate_transfer
                  (initial_transfer env input ca wid w fee) with
              | error e =>
                rw [create_transfer_core_err_validate env st input ca wid w
                  fee e hv]
                exact persist_of_empty_trace _ rfl
              | ok u2 =>
                cases u2
                rw [create_transfer_core_save env st input ca wid w fee hv]
                exact create_transfer_save_persists env st _ _
        · rw [create_transfer_err_forbidden env st input ca wid w hra hpu hwg
            hmem]
          exact persist_of_empty_trace _ rfl

/-- Witness for C4 at a concrete call. -/
theorem create_transfer_persists_before_post_process_witness :
    PersistBeforePost (create_transfer envHookFail stOnePolicy inputCex) :=
  create_transfer_persists_before_post_process envHookFail stOnePolicy inputCex

/-- C1 counterexample: with a failing post-process hook, create_transfer
does not return the created transfer; it traps on the expect call, while
the transfer is already persisted in the repository state. -/
theorem create_transfer_hook_failure_cex :
    (create_transfer envHookFail stOnePolicy inputCex).result =
      Outcome.trap ("Operation post processing failed") ∧
    mapGet 100 (create_transfer envHookFail stOnePolicy inputCex).state.transfers ≠
      none := by
  constructor
  · decide
  · decide

/-- C1 amended: a post-create processing failure is not swallowed; when
every post-process invocation errors and at least one approval operation
was built, create_transfer traps via expect, and the already-persisted
transfer remains in the repository state at the trap point. -/
theorem create_transfer_post_process_failure_traps (env : Env)
    (st : BankState) (input : TransferInput) (ca : Account) (wid : WalletId)
    (w : Wallet) (fee : Nat)
    (h1 : env.resolve_account env.caller = some ca)
    (h2 : env.parse_uuid input.from_wallet_id = some wid)
    (h3 : mapGet wid st.wallets = some w)
    (h4 : ca.id ∈ w.owners)
    (h5 : env.blockchain_build w.blockchain w.standard = .ok ())
    (h6 : env.transaction_fee w = .ok fee)
    (h7 : ∀ t, env.validate_transfer t = .ok ())
    (h8 : w.policies ≠ [])
    (h9 : ∀ op, ∃ e, env.post_process op = .error e) :
    (create_transfer env st input).result =
      Outcome.trap ("Operation post processing failed") ∧
    mapGet (env.fresh_uuid 0)
      (create_transfer env st input).state.transfers ≠ none := by
  rw [create_transfer_reduces env st input ca wid w fee h1 h2 h3 h4 h5 h6,
    create_transfer_core_save env st input ca wid w fee (h7 _)]
  have hne : build_operations_from_wallet_policies env w
      (initial_transfer env input ca wid w fee) ≠ [] := by
    unfold build_operations_from_wallet_policies
    cases hw : w.policies with
    | nil => exact absurd hw h8
    | cons p ps => exact build_ops_aux_ne_nil env w _ 1 p ps
  constructor
  · rw [create_transfer_save_result]
    exact post_process_all_trap env _ _ hne h9
  · rw [create_transfer_save_state, insert_operations_transfers]
    have hid : (savedTransfer (initial_transfer env input ca wid w fee)
        (build_operations_from_wallet_policies env w
          (initial_transfer env input ca wid w fee))).id =
        env.fresh_uuid 0 := savedTransfer_id _ _
    show mapGet (env.fresh_uuid 0) (mapInsert _ _ st.transfers) ≠ none
    rw [← hid, mapGet_insert, if_pos rfl]
    exact Option.some_ne_none _

/-- Witness for the amended C1 at a concrete failing hook. -/
theorem create_transfer_post_process_failure_traps_witness :
    (create_transfer envHookFail stOnePolicy inputCex).result =
      Outcome.trap ("Operation post processing failed") :=
  (create_transfer_post_process_failure_traps envHookFail stOnePolicy inputCex
    ⟨77⟩ 1 walletOnePolicy 10 (by decide) (by decide) (by decide) (by decide)
    rfl rfl (fun t => rfl) (by decide)
    (fun op => ⟨Err.ValidationError ("boom"), rfl⟩)).1

/-- C2 counterexample: against a wallet with no policies, create_transfer
succeeds, builds no approval operation (the trace holds only the transfer
insert), and persists the transfer already in status Approved. -/
theorem create_transfer_ungoverned_approved_cex :
    (create_transfer envCex stNoPolicy inputCex).result = Outcome.ok
      { id := 100, initiator_account := 77, from_wallet := 1,
        to_address := "addr", amount := 5, fee := 10,
        network := "icp:mainnet", status := TransferStatus.Approved,
        expiration_dt := 2000, policy_snapshot := [] } ∧
    (create_transfer envCex stNoPolicy inputCex).trace =
      [Ev.insertTransfer 100] := by
  constructor
  · decide
  · decide

/-- C2 amended: a wallet whose policies build no approval operation makes
create_transfer auto-approve: the transfer is persisted with status
Approved and no governing approval operation; no quorum-of-zero rejection
exists in this service. -/
theorem create_transfer_no_policies_auto_approved (env : Env)
    (st : BankState) (input : TransferInput) (ca : Account) (wid : WalletId)
    (w : Wallet) (fee : Nat)
    (h1 : env.resolve_account env.caller = some ca)
    (h2 : env.parse_uuid input.from_wallet_id = some wid)
    (h3 : mapGet wid st.wallets = some w)
    (h4 : ca.id ∈ w.owners)
    (h5 : env.blockchain_build w.blockchain w.standard = .ok ())
    (h6 : env.transaction_fee w = .ok fee)
    (h7 : ∀ t, env.validate_transfer t = .ok ())
    (h8 : w.policies = []) :
    (create_transfer env st input).result = Outcome.ok
      { initial_transfer env input ca wid w fee
        with status := TransferStatus.Approved } ∧
    (create_transfer env st input).trace =
      [Ev.insertTransfer (env.fresh_uuid 0)] := by
  rw [create_transfer_reduces env st input ca wid w fee h1 h2 h3 h4 h5 h6,
    create_transfer_core_save env st input ca wid w fee (h7 _)]
  have hops : build_operations_from_wallet_policies env w
      (initial_transfer env input ca wid w fee) = [] := by
    unfold build_operations_from_wallet_policies
    rw [h8]
    rfl
  rw [hops]
  constructor
  · rw [create_transfer_save_result]
    rfl
  · rw [create_transfer_save_trace]
    rw [savedTransfer_id]
    rfl

/-- Witness for the amended C2 at a concrete policy-free wallet. -/
theorem create_transfer_no_policies_auto_approved_witness :
    (create_transfer envCex stNoPolicy inputCex).trace =
      [Ev.insertTransfer (envCex.fresh_uuid 0)] :=
  (create_transfer_no_policies_auto_approved envCex stNoPolicy inputCex
    ⟨77⟩ 1 walletNoPolicy 10 (by decide) (by decide) (by decide) (by decide)
    rfl rfl (fun t => rfl) (by decide)).2

/-! ### get_transfer and get_transfers (C7, C8) -/

/-- C7 counterexample: a stored transfer whose source wallet is missing is
refused (WalletNotFound) even though the caller's account is the transfer's
initiator, so the claimed two error conditions are not exhaustive. -/
theorem get_transfer_error_iff_cex :
    mapGet 3 stMissingWallet.transfers = some trOrphan ∧
    envCex.resolve_account envCex.caller = some ⟨77⟩ ∧
    trOrphan.initiator_account = 77 ∧
    get_transfer envCex stMissingWallet 3 =
      .error (Err.WalletNotFound 6) := by
  refine ⟨by decide, by decide, by decide, rfl⟩

/-- C7 amended: get_transfer mutates nothing (it is a pure read returning
the stored transfer on success), and errors exactly when the id is absent,
or the caller's identity resolves to no account, or the transfer's source
wallet is absent, or the caller's account is neither the initiator nor a
wallet owner. -/
theorem get_transfer_error_characterization (env : Env) (st : BankState)
    (id : TransferId) :
    (∀ t, get_transfer env st id = .ok t → mapGet id st.transfers = some t) ∧
    ((∃ e, get_transfer env st id = .error e) ↔
      mapGet id st.transfers = none ∨
      env.resolve_account env.caller = none ∨
      (∃ t, mapGet id st.transfers = some t ∧
        mapGet t.from_wallet st.wallets = none) ∨
      (∃ t ca w, mapGet id st.transfers = some t ∧
        env.resolve_account env.caller = some ca ∧
        mapGet t.from_wallet st.wallets = some w ∧
        ca.id ≠ t.initiator_account ∧ ca.id ∉ w.owners)) := by
  cases ht : mapGet id st.transfers with
  | none =>
    constructor
    · intro t h
      unfold get_transfer at h
      rw [ht] at h
      cases h
    · constructor
      · intro _
        exact Or.inl rfl
      · intro _
        refine ⟨.TransferNotFound id, ?_⟩
        unfold get_transfer
        rw [ht]
  | some t =>
    cases hr : env.resolve_account env.caller with
    | none =>
      have herr : get_transfer env st id = .error .AccountNotFound := by
        simp only [get_transfer, assert_transfer_access, ht, hr]
      constructor
      · intro t' h
        rw [herr] at h
        cases h
      · constructor
        · intro _
          exact Or.inr (Or.inl rfl)
        · intro _
          exact ⟨.AccountNotFound, herr⟩
    | some ca =>
      cases hw : mapGet t.from_wallet st.wallets with
      | none =>
        have herr : get_transfer env st id =
            .error (.WalletNotFound t.from_wallet) := by
          simp only [get_transfer, assert_transfer_access, ht, hr, hw]
        constructor
        · intro t' h
          rw [herr] at h
          cases h
        · constructor
          · intro _
            exact Or.inr (Or.inr (Or.inl ⟨t, rfl, hw⟩))
          · intro _
            exact ⟨.WalletNotFound t.from_wallet, herr⟩
      | some w =>
        by_cases hacc : ca.id = t.initiator_account ∨ ca.id ∈ w.owners
        · have hok : get_transfer env st id = .ok t := by
            simp only [get_transfer, assert_transfer_access, ht, hr, hw, hacc,
              if_true, ite_true]
          constructor
          · intro t' h
            rw [hok] at h
            injection h with h'
            rw [← h']
          · constructor
            · rintro ⟨e, he⟩
              rw [hok] at he
              cases he
            · rintro (h | h | ⟨t', ht', hw'⟩ | ⟨t', ca', w', ht', hr', hw', hne, hnm⟩)
              · cases h
              · cases h
              · injection ht' with ht2
                rw [← ht2] at hw'
                rw [hw] at hw'
                cases hw'
              · injection ht' with ht2
                injection hr' with hr2
                subst ht2
                subst hr2
                rw [hw] at hw'
                injection hw' with hw2
                subst hw2
                rcases hacc with h | h
                · exact absurd h hne
                · exact absurd h hnm
        · have herr : get_transfer env st id = .error .Forbidden := by
            simp only [get_transfer, assert_transfer_access, ht, hr, hw, hacc,
              if_false, ite_false]
          rw [not_or] at hacc
          constructor
          · intro t' h
            rw [herr] at h
            cases h
          · constructor
            · intro _
              exact Or.inr (Or.inr (Or.inr ⟨t, ca, w, rfl, rfl, hw,
                hacc.1, hacc.2⟩))
            · intro _
              exact ⟨.Forbidden, herr⟩

/-- Witness for the amended C7 at a concrete state with a missing wallet. -/
theorem get_transfer_error_characterization_witness :
    ∃ e, get_transfer envCex stMissingWallet 3 = .error e :=
  (get_transfer_error_characterization envCex stMissingWallet 3).2.mpr
    (Or.inr (Or.inr (Or.inl ⟨trOrphan, by decide, by decide⟩)))

theorem assert_of_get_ok (env : Env) (st : BankState) (id : TransferId)
    (t : Transfer) (h : get_transfer env st id = .ok t) :
    assert_transfer_access env st t = .ok () := by
  unfold get_transfer at h
  cases ht : mapGet id st.transfers with
  | none =>
    rw [ht] at h
    cases h
  | some t0 =>
    rw [ht] at h
    cases ha : assert_transfer_access env st t0 with
    | error e =>
      simp only [ha] at h
      cases h
    | ok u =>
      cases u
      simp only [ha] at h
      injection h with h'
      rw [← h']
      exact ha

theorem get_transfers_go_ok (env : Env) (st : BankState)
    (ids : List TransferId) (ts : List Transfer)
    (h : get_transfers_go env st ids = .ok ts) :
    ts.length = ids.length ∧
    ∀ i (hi : i < ids.length) (hi' : i < ts.length),
      get_transfer env st (ids.get ⟨i, hi⟩) = .ok (ts.get ⟨i, hi'⟩) := by
  induction ids generalizing ts with
  | nil =>
    rw [get_transfers_go] at h
    injection h with h'
    rw [← h']
    refine ⟨rfl, ?_⟩
    intro i hi
    cases hi
  | cons id rest ih =>
    cases hg : get_transfer env st id with
    | error e =>
      have heq : get_transfers_go env st (id :: rest) = .error e := by
        simp only [get_transfers_go, hg]
      rw [heq] at h
      cases h
    | ok t =>
      have ha := assert_of_get_ok env st id t hg
      cases hrec : get_transfers_go env st rest with
      | error e =>
        have heq : get_transfers_go env st (id :: rest) = .error e := by
          simp only [get_transfers_go, hg, ha, hrec]
        rw [heq] at h
        cases h
      | ok ts' =>
        have heq : get_transfers_go env st (id :: rest) = .ok (t :: ts') := by
          simp only [get_transfers_go, hg, ha, hrec]
        rw [heq] at h
        injection h with h'
        obtain ⟨hlen, hall⟩ := ih ts' hrec
        rw [← h']
        refine ⟨by simp [hlen], ?_⟩
        intro i hi hi'
        cases i with
        | zero => exact hg
        | succ j =>
          have hj : j < rest.length := by
            simp at hi
            omega
          have hj' : j < ts'.length := by omega
          exact hall j hj hj'

theorem get_transfers_go_error (env : Env) (st : BankState)
    (ids : List TransferId)
    (h : ∃ id ∈ ids, ∃ e, get_transfer env st id = .error e) :
    ∃ e, get_transfers_go env st ids = .error e := by
  induction ids with
  | nil =>
    obtain ⟨id, hid, _⟩ := h
    cases hid
  | cons id0 rest ih =>
    cases hg : get_transfer env st id0 with
    | error e =>
      refine ⟨e, ?_⟩
      simp only [get_transfers_go, hg]
    | ok t =>
      have ha := assert_of_get_ok env st id0 t hg
      have hrest : ∃ id ∈ rest, ∃ e, get_transfer env st id = .error e := by
        obtain ⟨id, hid, e, he⟩ := h
        rcases List.mem_cons.mp hid with h2 | h2
        · rw [h2] at he
          rw [he] at hg
          cases hg
        · exact ⟨id, h2, e, he⟩
      obtain ⟨e, he⟩ := ih hrest
      refine ⟨e, ?_⟩
      simp only [get_transfers_go, hg, ha, he]

theorem get_transfers_go_complete (env : Env) (st : BankState)
    (ids : List TransferId)
    (h : ∀ id ∈ ids, ∃ t, get_transfer env st id = .ok t) :
    ∃ ts, get_transfers_go env st ids = .ok ts := by
  induction ids with
  | nil => exact ⟨[], rfl⟩
  | cons id0 rest ih =>
    obtain ⟨t, ht⟩ := h id0 (List.mem_cons_self _ _)
    have ha := assert_of_get_ok env st id0 t ht
    obtain ⟨ts, hts⟩ := ih (fun id hid => h id (List.mem_cons_of_mem _ hid))
    refine ⟨t :: ts, ?_⟩
    simp only [get_transfers_go, ht, ha, hts]

/-- C8: get_transfers rejects more than 50 ids with a batch error
independently of the stored state; within the limit, if every id passes
the get_transfer checks it returns Ok with the corresponding transfers in
input order, any Ok result matches the input ids pointwise, and it errors
whenever any single id fails the get_transfer checks. -/
theorem getTransfers_batch_spec (env : Env) (st : BankState)
    (ids : List TransferId) :
    (ids.length > 50 → ∀ env' st', get_transfers env' st' ids =
      .error (.GetTransfersBatchNotAllowed 50)) ∧
    (ids.length ≤ 50 →
      ((∀ id ∈ ids, ∃ t, get_transfer env st id = .ok t) →
        ∃ ts, get_transfers env st ids = .ok ts ∧ ts.length = ids.length ∧
          ∀ i (hi : i < ids.length) (hi' : i < ts.length),
            get_transfer env st (ids.get ⟨i, hi⟩) = .ok (ts.get ⟨i, hi'⟩)) ∧
      (∀ ts, get_transfers env st ids = .ok ts → ts.length = ids.length ∧
        ∀ i (hi : i < ids.length) (hi' : i < ts.length),
          get_transfer env st (ids.get ⟨i, hi⟩) = .ok (ts.get ⟨i, hi'⟩)) ∧
      ((∃ id ∈ ids, ∃ e, get_transfer env st id = .error e) →
        ∃ e, get_transfers env st ids = .error e)) := by
  constructor
  · intro hlen env' st'
    unfold get_transfers
    rw [if_pos hlen]
  · intro hlen
    have hif : get_transfers env st ids = get_transfers_go env st ids := by
      unfold get_transfers
      rw [if_neg (by omega)]
    refine ⟨?_, ?_, ?_⟩
    · intro hall
      obtain ⟨ts, hts⟩ := get_transfers_go_complete env st ids hall
      obtain ⟨hl, hpt⟩ := get_transfers_go_ok env st ids ts hts
      exact ⟨ts, by rw [hif]; exact hts, hl, hpt⟩
    · intro ts hts
      rw [hif] at hts
      exact get_transfers_go_ok env st ids ts hts
    · intro h
      rw [hif]
      exact get_transfers_go_error env st ids h

/-- Witness for C8: an oversized batch is rejected, and a singleton batch
whose id passes the checks returns Ok with exactly one transfer. -/
theorem getTransfers_batch_spec_witness :
    get_transfers envCex stMissingWallet (List.replicate 51 0) =
      .error (.GetTransfersBatchNotAllowed 50) ∧
    ∃ ts, get_transfers envCex stWithTransfer [100] = .ok ts ∧
      ts.length = 1 := by
  constructor
  · exact (getTransfers_batch_spec envCex stMissingWallet
      (List.replicate 51 0)).1 (by decide) envCex stMissingWallet
  · obtain ⟨ts, hok, hlen, _⟩ :=
      ((getTransfers_batch_spec envCex stWithTransfer [100]).2
        (by decide)).1 (fun id hid => by
          have hid' : id = 100 := by simpa using hid
          subst hid'
          exact ⟨trGoverned, rfl⟩)
    exact ⟨ts, hok, hlen⟩

/-- C9: Notification.validate succeeds exactly when the English title is at
most 255 bytes and the English message is at most 4096 bytes; the locale-key
components are never inspected. -/
theorem notification_validate_iff (n : Notification) :
    (n.validate = .ok () ↔
      n.title.1.length ≤ 255 ∧ n.message.1.length ≤ 4096) ∧
    (∀ tk mk : Bytes,
      Notification.validate
        { n with title := (n.title.1, tk), message := (n.message.1, mk) } =
        n.validate) := by
  constructor
  · simp only [Notification.validate, validate_title, validate_message,
      Notification.MAX_TITLE_LEN, Notification.MAX_MESSAGE_LEN, bind, Except.bind]
    constructor
    · intro h
      by_cases h1 : n.title.1.length > 255
      · simp [h1] at h
      · by_cases h2 : n.message.1.length > 4096
        · simp [h1, h2] at h
        · omega
    · intro ⟨h1, h2⟩
      have h1' : ¬ n.title.1.length > 255 := by omega
      have h2' : ¬ n.message.1.length > 4096 := by omega
      simp [h1', h2']
  · intro tk mk
    simp [Notification.validate, validate_title, validate_message]

end Orbit
